import Mathlib

/-!
Verification of the homomorphic Battleship game (`game_modified.py`).

The Python source is shallowly embedded: each class becomes a structure,
each method a pure function; the in-place mutation of `Player` objects
becomes explicit state passing (a method returns the updated `Player`);
the process-wide `random` calls become explicit parameters (the sampled
blinding factor, the stream of sampled placement candidates); the Python
dict `encrypted_board` becomes a function to `Option` (a missing key is
`none`, mirroring `KeyError`).

The `phe` Paillier library is an external dependency whose code is not
part of the repository; it is modelled from the spec's contract for an
additively homomorphic scheme (§4.2, glossary): a ciphertext carries the
plaintext residue modulo the key's message-space modulus `n`, scalar
multiplication multiplies that residue mod `n`, and decryption recovers
it, failing when the ciphertext was produced under a different key.
-/

/-- Modelled from the spec: `phe.paillier` public key; only its
message-space modulus `n` is relevant to the game logic. -/
structure PaillierPublicKey where
  n : Nat
deriving DecidableEq, Repr

/-- Modelled from the spec: `phe.paillier` private key, paired with the
public key of the same modulus. -/
structure PaillierPrivateKey where
  n : Nat
deriving DecidableEq, Repr

/-- Modelled from the spec: a Paillier ciphertext of plaintext `m` under a
key with modulus `n` behaves, under the homomorphic operations the game
uses, exactly as the residue `m % n`; the model carries that residue and
the modulus. -/
structure EncryptedNumber where
  val : Nat
  n : Nat
deriving DecidableEq, Repr

/-- Modelled from the spec: `public_key.encrypt(m)`. -/
def PaillierPublicKey.encrypt (pk : PaillierPublicKey) (m : Nat) : EncryptedNumber :=
  ⟨m % pk.n, pk.n⟩

/-- Modelled from the spec: homomorphic scalar multiplication
`ciphertext * k` (an `EncryptedNumber` of `k·m`). -/
def EncryptedNumber.scalarMul (c : EncryptedNumber) (k : Nat) : EncryptedNumber :=
  ⟨c.val * k % c.n, c.n⟩

/-- Modelled from the spec: `private_key.decrypt(c)`; fails (`phe` raises
`ValueError`) when the ciphertext belongs to a different keypair. -/
def PaillierPrivateKey.decrypt (sk : PaillierPrivateKey) (c : EncryptedNumber) : Option Nat :=
  if c.n = sk.n then some c.val else none

/-- `Ship.__init__` / the ship record: name, size, placed coordinates,
set of coordinates hit so far. -/
structure Ship where
  name : String
  size : Nat
  coordinates : List (Nat × Nat)
  hits : Finset (Nat × Nat)
deriving DecidableEq

/-- `Ship(name, size)`: fresh ship, no coordinates, no hits. -/
def Ship.mk0 (name : String) (size : Nat) : Ship :=
  ⟨name, size, [], ∅⟩

/-- `Ship.is_sunk`. -/
def Ship.is_sunk (s : Ship) : Bool :=
  s.hits.card == s.size

/-- `Ship.place(start_row, start_col, horizontal)`: the `size` contiguous
coordinates, along columns if horizontal else along rows. -/
def Ship.place (s : Ship) (start_row start_col : Nat) (horizontal : Bool) :
    List (Nat × Nat) :=
  (List.range s.size).map fun i =>
    if horizontal then (start_row, start_col + i) else (start_row + i, start_col)

/-- The board grids: a 10×10 grid is modelled as a function of the row and
column indices (only indices below 10 are ever read or written). -/
def Board := Nat → Nat → Nat

/-- `Player.__init__`'s board: all water. -/
def Board.empty : Board := fun _ _ => 0

/-- `self.board[r][c] = 1` for every coordinate of a placed ship. -/
def Board.mark (b : Board) (coords : List (Nat × Nat)) : Board :=
  fun r c => if (r, c) ∈ coords then 1 else b r c

/-- The cells of the 10×10 grid holding a ship (`board[r][c] == 1`). -/
def Board.occupied (b : Board) : Finset (Nat × Nat) :=
  (Finset.range 10 ×ˢ Finset.range 10).filter fun p => b p.1 p.2 = 1

/-- `Player.__init__`: name, plaintext board, guess board, the fixed
fleet, empty encrypted board, no keys yet, no hits received. -/
structure Player where
  name : String
  board : Board
  guess_board : Nat → Nat → Char
  ships : List Ship
  encrypted_board : Nat × Nat → Option EncryptedNumber
  public_key : PaillierPublicKey
  private_key : PaillierPrivateKey
  hits_received : Nat
  total_ship_cells : Nat

/-- The fleet manifest built by `Player.__init__`. -/
def initialFleet : List Ship :=
  [Ship.mk0 "Carrier" 5, Ship.mk0 "Battleship" 4, Ship.mk0 "Cruiser" 3,
   Ship.mk0 "Submarine" 2, Ship.mk0 "Destroyer" 2]

/-- `Player(name)`.  Python leaves the keys as `None` until
`generate_keys`; the model gives the placeholder modulus 0, which no
operation reads before `generate_keys` replaces it. -/
def Player.mk0 (name : String) : Player where
  name := name
  board := Board.empty
  guess_board := fun _ _ => ' '
  ships := initialFleet
  encrypted_board := fun _ => none
  public_key := ⟨0⟩
  private_key := ⟨0⟩
  hits_received := 0
  total_ship_cells := (initialFleet.map Ship.size).sum

/-- `Player.generate_keys`: a fresh keypair; the sampled modulus `n` of
the generated keypair is the explicit argument. -/
def Player.generate_keys (p : Player) (n : Nat) : Player :=
  { p with public_key := ⟨n⟩, private_key := ⟨n⟩ }

/-- `Player.encrypt_board`: one ciphertext per cell of the 10×10 grid,
under the player's own public key. -/
def Player.encrypt_board (p : Player) : Player :=
  { p with
    encrypted_board := fun rc =>
      if rc.1 < 10 ∧ rc.2 < 10 then some (p.public_key.encrypt (p.board rc.1 rc.2))
      else none }

/-- Result value of `check_hit_homomorphic`: `("sunk", name)`,
`("hit", None)` or `("miss", None)`. -/
inductive QueryResult where
  | sunk (name : String)
  | hit
  | miss
deriving DecidableEq, Repr

/-- The `for ship in self.ships` loop of `check_hit_homomorphic`: the
first ship whose coordinates contain the guess gets the hit added; the
loop reports the sunk ship's name when the hit sinks it, and `break`s
either way, leaving later ships untouched. -/
def markShipHit (rc : Nat × Nat) : List Ship → List Ship × Option String
  | [] => ([], none)
  | s :: rest =>
    if rc ∈ s.coordinates then
      let s' : Ship := { s with hits := insert rc s.hits }
      (s' :: rest, if s'.is_sunk then some s.name else none)
    else
      let t := markShipHit rc rest
      (s :: t.1, t.2)

/-- `Player.check_hit_homomorphic(guess_row, guess_col, opponent)`,
called on the defender.  The sampled blinding factor is the explicit
argument `k`; the defender's updated state is returned alongside the
result.  `none` is the `KeyError` of the dict lookup or the `ValueError`
of a cross-key decrypt. -/
def Player.check_hit_homomorphic (self : Player) (guess_row guess_col : Nat)
    (_opponent : Player) (k : Nat) : Option (Player × QueryResult) :=
  match self.encrypted_board (guess_row, guess_col) with
  | none => none
  | some encrypted_position =>
    let encrypted_result := encrypted_position.scalarMul k
    match self.private_key.decrypt encrypted_result with
    | none => none
    | some decrypted_val =>
      if decrypted_val ≠ 0 then
        let t := markShipHit (guess_row, guess_col) self.ships
        some ({ self with hits_received := self.hits_received + 1, ships := t.1 },
          match t.2 with
          | some n => QueryResult.sunk n
          | none => QueryResult.hit)
      else
        some (self, QueryResult.miss)

/-- `Player.has_lost`. -/
def Player.has_lost (p : Player) : Bool :=
  p.total_ship_cells ≤ p.hits_received

/-- The decrypted blinded intermediate value `v` a query at `(r,c)` with
blinding factor `k` produces on this player's board (the value of
`decrypted_val` inside `check_hit_homomorphic`). -/
def Player.decryptedVal (self : Player) (r c k : Nat) : Option Nat :=
  match self.encrypted_board (r, c) with
  | none => none
  | some ep => self.private_key.decrypt (ep.scalarMul k)

/-- One draw of the `while not placed` loop of `place_ship_random`: the
sampled orientation and the sampled `randint` start position. -/
structure Candidate where
  horizontal : Bool
  row : Nat
  col : Nat
deriving DecidableEq, Repr

/-- The ranges the `random.randint` calls of `place_ship_random` draw
from, given the chosen orientation: `row ∈ [0,9]`, `col ∈ [0,10-size]`
when horizontal, transposed otherwise. -/
def candidateInRange (s : Ship) (cand : Candidate) : Prop :=
  if cand.horizontal then cand.row ≤ 9 ∧ cand.col ≤ 10 - s.size
  else cand.row ≤ 10 - s.size ∧ cand.col ≤ 9

instance (s : Ship) (cand : Candidate) : Decidable (candidateInRange s cand) := by
  unfold candidateInRange; infer_instance

/-- `Player.place_ship_random`'s retry loop over an explicit stream of
sampled candidates: the first candidate whose cells are all water is
placed (board cells marked, ship coordinates frozen); an exhausted stream
models a run of the unbounded loop that never succeeded. -/
def place_ship_random (b : Board) (ship : Ship) :
    List Candidate → Option (Board × Ship)
  | [] => none
  | cand :: rest =>
    let coords := ship.place cand.row cand.col cand.horizontal
    if coords.all fun rc => b rc.1 rc.2 == 0 then
      some (b.mark coords, { ship with coordinates := coords })
    else
      place_ship_random b ship rest

/-- `Player.setup_board`'s `for ship in self.ships` loop: place each ship
in turn, threading the board; one candidate stream per ship. -/
def setupShips (b : Board) : List Ship → List (List Candidate) →
    Option (Board × List Ship)
  | [], _ => some (b, [])
  | _ :: _, [] => none
  | s :: ss, cs :: css =>
    match place_ship_random b s cs with
    | none => none
    | some (b', s') =>
      match setupShips b' ss css with
      | none => none
      | some (b'', ss') => some (b'', s' :: ss')

/-- `Player.setup_board`, over a player. -/
def Player.setup_board (p : Player) (css : List (List Candidate)) : Option Player :=
  match setupShips p.board p.ships css with
  | none => none
  | some (b', ss') => some { p with board := b', ships := ss' }

/-- The state of `main`'s game loop: the two players, whose turn it is,
the turn counter, the `game_over` flag. -/
structure GameState where
  player1 : Player
  player2 : Player
  currentIsP1 : Bool
  turn : Nat
  game_over : Bool

/-- The attacker of the current turn. -/
def GameState.current (g : GameState) : Player :=
  if g.currentIsP1 then g.player1 else g.player2

/-- The defender of the current turn. -/
def GameState.opponent (g : GameState) : Player :=
  if g.currentIsP1 then g.player2 else g.player1

/-- One iteration of `main`'s `while not game_over` loop, given the guess
the attacker entered and the blinding factor the defender will sample:
increment the turn counter; if the cell was already guessed, `continue`
(nothing else changes); otherwise run the protocol, mark the attacker's
guess board `'X'` on hit or sunk and `'O'` on miss, then either set
`game_over` (defender lost) or swap roles. -/
def mainStep (g : GameState) (guess : Nat × Nat) (k : Nat) : Option GameState :=
  let g1 : GameState := { g with turn := g.turn + 1 }
  if g1.current.guess_board guess.1 guess.2 ≠ ' ' then
    some g1
  else
    match g1.opponent.check_hit_homomorphic guess.1 guess.2 g1.current k with
    | none => none
    | some (opp', res) =>
      let mark : Char := if res = QueryResult.miss then 'O' else 'X'
      let cur' : Player :=
        { g1.current with guess_board := fun r c =>
            if (r, c) = guess then mark else g1.current.guess_board r c }
      if opp'.has_lost then
        some { g1 with
          player1 := if g1.currentIsP1 then cur' else opp'
          player2 := if g1.currentIsP1 then opp' else cur'
          game_over := true }
      else
        some { g1 with
          player1 := if g1.currentIsP1 then cur' else opp'
          player2 := if g1.currentIsP1 then opp' else cur'
          currentIsP1 := ¬g1.currentIsP1 }

/-! Concrete game objects used to instantiate the theorems. -/

/-- A concrete player with keys generated (all-water board). -/
def alice : Player := (Player.mk0 "Alice").generate_keys 1000003

/-- `alice` after `encrypt_board`. -/
def aliceE : Player := alice.encrypt_board

/-- A concrete opponent player. -/
def bob : Player := (Player.mk0 "Bob").generate_keys 1000019

/-- A concrete stream of placement candidates: each ship placed
horizontally at column 0 of its own row, first draw succeeding. -/
def demoCss : List (List Candidate) :=
  [⟨true, 0, 0⟩] :: [⟨true, 1, 0⟩] :: [⟨true, 2, 0⟩] :: [⟨true, 3, 0⟩] ::
    [⟨true, 4, 0⟩] :: []

/-- The player produced by `setup_board` on the `demoCss` draws. -/
def carolSetup : Player :=
  match (Player.mk0 "Carol").setup_board demoCss with
  | some p => p
  | none => Player.mk0 "Carol"

/-- `carolSetup` with keys generated and board encrypted: a fully
set-up defender whose Carrier occupies `(0,0)`–`(0,4)`. -/
def carol : Player := (carolSetup.generate_keys 1000003).encrypt_board

/-! Helper lemmas about the embedded operations. -/

lemma encrypt_board_lookup (p : Player) (r c : Nat) (hr : r < 10) (hc : c < 10) :
    p.encrypt_board.encrypted_board (r, c) =
      some (p.public_key.encrypt (p.board r c)) := by
  simp [Player.encrypt_board, hr, hc]

lemma decryptedVal_encrypt_board (p : Player) (r c k : Nat)
    (hr : r < 10) (hc : c < 10)
    (hkey : p.private_key.n = p.public_key.n)
    (hbn : p.board r c < p.public_key.n)
    (hbk : p.board r c * k < p.public_key.n) :
    p.encrypt_board.decryptedVal r c k = some (p.board r c * k) := by
  simp [Player.decryptedVal, Player.encrypt_board, hr, hc,
    PaillierPublicKey.encrypt, EncryptedNumber.scalarMul,
    PaillierPrivateKey.decrypt, hkey, Nat.mod_eq_of_lt hbn,
    Nat.mod_eq_of_lt hbk]

/-- `check_hit_homomorphic` factored through the decrypted blinded
value: hit branch when `v ≠ 0`, miss branch otherwise. -/
lemma check_hit_as_decryptedVal (self o : Player) (r c k : Nat) :
    self.check_hit_homomorphic r c o k =
      (self.decryptedVal r c k).map fun v =>
        if v ≠ 0 then
          ({ self with
              hits_received := self.hits_received + 1
              ships := (markShipHit (r, c) self.ships).1 },
            match (markShipHit (r, c) self.ships).2 with
            | some n => QueryResult.sunk n
            | none => QueryResult.hit)
        else (self, QueryResult.miss) := by
  unfold Player.check_hit_homomorphic Player.decryptedVal
  cases self.encrypted_board (r, c) with
  | none => rfl
  | some ep =>
    dsimp only
    cases self.private_key.decrypt (ep.scalarMul k) with
    | none => rfl
    | some v => by_cases h0 : v = 0 <;> simp [h0]

/-- Every field of the defender other than `hits_received` and `ships`
survives a `check_hit_homomorphic` call unchanged. -/
lemma check_hit_frame (self o : Player) (r c k : Nat) (q : Player)
    (res : QueryResult) (h : self.check_hit_homomorphic r c o k = some (q, res)) :
    q.name = self.name ∧ q.board = self.board ∧
    q.guess_board = self.guess_board ∧
    q.encrypted_board = self.encrypted_board ∧
    q.public_key = self.public_key ∧ q.private_key = self.private_key ∧
    q.total_ship_cells = self.total_ship_cells := by
  rw [check_hit_as_decryptedVal] at h
  cases hv : self.decryptedVal r c k with
  | none => rw [hv] at h; simp at h
  | some v =>
    rw [hv] at h
    by_cases h0 : v = 0
    · simp [h0] at h
      obtain ⟨hq, -⟩ := h
      subst hq; exact ⟨rfl, rfl, rfl, rfl, rfl, rfl, rfl⟩
    · simp [h0] at h
      obtain ⟨hq, -⟩ := h
      subst hq; exact ⟨rfl, rfl, rfl, rfl, rfl, rfl, rfl⟩

/-- `hits_received` rises by exactly one on a hit and is untouched on a
miss. -/
lemma check_hit_hits_received (self o : Player) (r c k : Nat) (q : Player)
    (res : QueryResult) (h : self.check_hit_homomorphic r c o k = some (q, res)) :
    q.hits_received = self.hits_received ∨
      q.hits_received = self.hits_received + 1 := by
  rw [check_hit_as_decryptedVal] at h
  cases hv : self.decryptedVal r c k with
  | none => rw [hv] at h; simp at h
  | some v =>
    rw [hv] at h
    by_cases h0 : v = 0
    · simp [h0] at h
      obtain ⟨hq, -⟩ := h
      subst hq; exact Or.inl rfl
    · simp [h0] at h
      obtain ⟨hq, -⟩ := h
      subst hq; exact Or.inr rfl

lemma board_bit_facts (p : Player) (r c k : Nat)
    (hn : 999999 < p.public_key.n)
    (hb : p.board r c = 0 ∨ p.board r c = 1)
    (hk1 : 1 ≤ k) (hk2 : k ≤ 999999) :
    p.board r c < p.public_key.n ∧ p.board r c * k < p.public_key.n ∧
      (p.board r c * k ≠ 0 ↔ p.board r c = 1) := by
  rcases hb with h | h <;> rw [h] <;> simp <;> omega

/-- C1: for every cell `(r,c)` and every blinding factor
`k ∈ [1, 999999]`, the hit-check protocol classifies the query as a hit
iff the defender's plaintext board has a 1 at `(r,c)`: the decrypted
blinded value `v = k·b` is zero exactly when the cell bit `b` is zero. -/
theorem C1_protocol_matches_plaintext (p o : Player) (r c k : Nat)
    (hr : r < 10) (hc : c < 10)
    (hkey : p.private_key.n = p.public_key.n)
    (hn : 999999 < p.public_key.n)
    (hb : p.board r c = 0 ∨ p.board r c = 1)
    (hk1 : 1 ≤ k) (hk2 : k ≤ 999999) :
    p.encrypt_board.decryptedVal r c k = some (k * p.board r c) ∧
    (k * p.board r c = 0 ↔ p.board r c = 0) ∧
    (p.encrypt_board.check_hit_homomorphic r c o k).isSome = true ∧
    ∀ q res, p.encrypt_board.check_hit_homomorphic r c o k = some (q, res) →
      ((res ≠ QueryResult.miss) ↔ p.board r c = 1) := by
  obtain ⟨hbn, hbk, hbit⟩ := board_bit_facts p r c k hn hb hk1 hk2
  have hdv : p.encrypt_board.decryptedVal r c k = some (p.board r c * k) :=
    decryptedVal_encrypt_board p r c k hr hc hkey hbn hbk
  refine ⟨by rw [hdv, Nat.mul_comm], ?_, ?_, ?_⟩
  · rcases hb with h | h
    · simp [h]
    · simp [h]
      omega
  · rw [check_hit_as_decryptedVal, hdv]; rfl
  · intro q res heq
    rw [check_hit_as_decryptedVal, hdv] at heq
    rcases hb with h | h
    · rw [h] at heq
      simp at heq
      simp [heq.2, h]
    · rw [h] at heq
      have hk0 : k ≠ 0 := by omega
      simp [hk0] at heq
      rw [h]
      cases h2 : (markShipHit (r, c) p.encrypt_board.ships).2 with
      | none => rw [h2] at heq; simp [← heq.2]
      | some nm => rw [h2] at heq; simp [← heq.2]

/-- Witness for C1 at a concrete player (all-water board, `k = 5`):
the decrypted value is `5·0 = 0` and the result is a miss. -/
theorem C1_witness :
    aliceE.decryptedVal 0 0 5 = some (5 * alice.board 0 0) ∧
    (5 * alice.board 0 0 = 0 ↔ alice.board 0 0 = 0) ∧
    (aliceE.check_hit_homomorphic 0 0 bob 5).isSome = true ∧
    ∀ q res, aliceE.check_hit_homomorphic 0 0 bob 5 = some (q, res) →
      ((res ≠ QueryResult.miss) ↔ alice.board 0 0 = 1) :=
  C1_protocol_matches_plaintext alice bob 0 0 5 (by decide) (by decide)
    (by decide) (by decide) (Or.inl (by decide)) (by decide) (by decide)

/-- C2: after `encrypt_board`, every stored ciphertext decrypts (under
the owner's private key) to the plaintext board bit, and this persists:
neither a hit-check query nor a whole game-loop step ever overwrites a
stored ciphertext. -/
theorem C2_encrypted_board_invariant (p : Player)
    (hkey : p.private_key.n = p.public_key.n)
    (hb : ∀ r < 10, ∀ c < 10, p.board r c < p.public_key.n) :
    (∀ r < 10, ∀ c < 10,
      (p.encrypt_board.encrypted_board (r, c)).bind
          p.encrypt_board.private_key.decrypt = some (p.board r c)) ∧
    (∀ (q o : Player) (r c k : Nat) (q' : Player) (res : QueryResult),
      q.check_hit_homomorphic r c o k = some (q', res) →
      q'.encrypted_board = q.encrypted_board) ∧
    (∀ (g : GameState) (guess : Nat × Nat) (k : Nat) (g' : GameState),
      mainStep g guess k = some g' →
      g'.player1.encrypted_board = g.player1.encrypted_board ∧
      g'.player2.encrypted_board = g.player2.encrypted_board) := by
  refine ⟨?_, ?_, ?_⟩
  · intro r hr c hc
    rw [encrypt_board_lookup p r c hr hc]
    have hlt := hb r hr c hc
    simp [Player.encrypt_board, PaillierPublicKey.encrypt,
      PaillierPrivateKey.decrypt, hkey, Nat.mod_eq_of_lt hlt]
  · intro q o r c k q' res h
    exact (check_hit_frame q o r c k q' res h).2.2.2.1
  · intro g guess k g' h
    unfold mainStep at h
    by_cases hg : (if g.currentIsP1 then g.player1 else g.player2).guess_board
        guess.1 guess.2 = ' '
    · rw [if_neg (by simp [GameState.current, hg])] at h
      cases hc : ({ g with turn := g.turn + 1 } : GameState).opponent.check_hit_homomorphic
          guess.1 guess.2 ({ g with turn := g.turn + 1 } : GameState).current k with
      | none => rw [hc] at h; simp at h
      | some pr =>
        rw [hc] at h
        obtain ⟨opp', res⟩ := pr
        have hfr := check_hit_frame _ _ _ _ _ _ _ hc
        have hopp : opp'.encrypted_board =
            ({ g with turn := g.turn + 1 } : GameState).opponent.encrypted_board :=
          hfr.2.2.2.1
        by_cases hl : opp'.has_lost
        · simp only [hl, if_true] at h
          cases h
          cases hb1 : g.currentIsP1 <;>
            simp_all [GameState.opponent, GameState.current]
        · simp only [hl, Bool.false_eq_true, if_false] at h
          cases h
          cases hb1 : g.currentIsP1 <;>
            simp_all [GameState.opponent, GameState.current]
    · rw [if_pos (by simp [GameState.current, hg])] at h
      cases h
      exact ⟨rfl, rfl⟩

/-- Witness for C2 at a concrete player: every ciphertext of `aliceE`
decrypts to the corresponding plaintext bit, and queries preserve the
ciphertext store. -/
theorem C2_witness :
    (∀ r < 10, ∀ c < 10,
      (aliceE.encrypted_board (r, c)).bind aliceE.private_key.decrypt =
        some (alice.board r c)) ∧
    (∀ (q o : Player) (r c k : Nat) (q' : Player) (res : QueryResult),
      q.check_hit_homomorphic r c o k = some (q', res) →
      q'.encrypted_board = q.encrypted_board) ∧
    (∀ (g : GameState) (guess : Nat × Nat) (k : Nat) (g' : GameState),
      mainStep g guess k = some g' →
      g'.player1.encrypted_board = g.player1.encrypted_board ∧
      g'.player2.encrypted_board = g.player2.encrypted_board) :=
  C2_encrypted_board_invariant alice (by decide) (by decide)

/-- C9: the retry loop of `place_ship_random` has no attempt bound and no
fatal-error path: on a board whose every cell is occupied, placement can
never succeed, and the loop fails through every sampled candidate however
long the stream — the `while not placed` loop would spin forever instead
of raising a configuration error. -/
theorem C9_retry_loop_never_succeeds (s : Ship) (hs : 1 ≤ s.size) :
    ∀ cands : List Candidate,
      place_ship_random (fun _ _ => 1) s cands = none := by
  intro cands
  induction cands with
  | nil => rfl
  | cons cand rest ih =>
    unfold place_ship_random
    rw [if_neg, ih]
    have hne : s.place cand.row cand.col cand.horizontal ≠ [] := by
      have : (s.place cand.row cand.col cand.horizontal).length = s.size := by
        simp [Ship.place]
      intro hnil
      rw [hnil] at this
      simp at this
      omega
    cases hpl : s.place cand.row cand.col cand.horizontal with
    | nil => exact absurd hpl hne
    | cons a l => simp

/-- Witness for C9: a concrete ship and candidate stream on the full
board. -/
theorem C9_witness :
    place_ship_random (fun _ _ => 1) (Ship.mk0 "Carrier" 5)
      [⟨true, 0, 0⟩] = none :=
  C9_retry_loop_never_succeeds (Ship.mk0 "Carrier" 5) (by decide) [⟨true, 0, 0⟩]

/-- C10: `check_hit_homomorphic` neither reads nor writes the `opponent`
argument: its result (the defender's updated state and the returned
classification) is identical for any two opponent arguments, so the
attacker object passed at the call site is untouched. -/
theorem C10_opponent_not_consulted (self : Player) (r c k : Nat)
    (o o' : Player) :
    self.check_hit_homomorphic r c o k = self.check_hit_homomorphic r c o' k :=
  rfl

/-- Counterexample to C5 as stated: two protocol runs at the same
(water) cell with distinct blinding factors 1 and 2 produce *equal*
decrypted intermediate values (both are `k·0 = 0`), so "the two decrypted
intermediate values differ" fails. -/
theorem C5_counterexample :
    (1 : Nat) ≠ 2 ∧
    aliceE.decryptedVal 0 0 1 = aliceE.decryptedVal 0 0 2 ∧
    aliceE.decryptedVal 0 0 1 = some 0 := by
  refine ⟨by decide, ?_, ?_⟩ <;> rfl

/-- C5 (amended): two protocol runs at the same cell with different
blinding factors in `[1, 999999]` always yield identical HIT/MISS
classification; the decrypted intermediate values differ whenever the
cell is occupied, while at a water cell both are 0. -/
theorem C5_blinding_amended (p o o2 : Player) (r c k1 k2 : Nat)
    (hr : r < 10) (hc : c < 10)
    (hkey : p.private_key.n = p.public_key.n)
    (hn : 999999 < p.public_key.n)
    (hb : p.board r c = 0 ∨ p.board r c = 1)
    (hk11 : 1 ≤ k1) (hk12 : k1 ≤ 999999)
    (hk21 : 1 ≤ k2) (hk22 : k2 ≤ 999999)
    (hne : k1 ≠ k2) :
    (p.encrypt_board.check_hit_homomorphic r c o k1).map Prod.snd =
      (p.encrypt_board.check_hit_homomorphic r c o2 k2).map Prod.snd ∧
    (p.board r c = 1 →
      p.encrypt_board.decryptedVal r c k1 ≠ p.encrypt_board.decryptedVal r c k2) ∧
    (p.board r c = 0 →
      p.encrypt_board.decryptedVal r c k1 = p.encrypt_board.decryptedVal r c k2) := by
  obtain ⟨hbn, hbk1, -⟩ := board_bit_facts p r c k1 hn hb hk11 hk12
  obtain ⟨-, hbk2, -⟩ := board_bit_facts p r c k2 hn hb hk21 hk22
  have hdv1 : p.encrypt_board.decryptedVal r c k1 = some (p.board r c * k1) :=
    decryptedVal_encrypt_board p r c k1 hr hc hkey hbn hbk1
  have hdv2 : p.encrypt_board.decryptedVal r c k2 = some (p.board r c * k2) :=
    decryptedVal_encrypt_board p r c k2 hr hc hkey hbn hbk2
  refine ⟨?_, ?_, ?_⟩
  · rw [check_hit_as_decryptedVal, check_hit_as_decryptedVal, hdv1, hdv2]
    rcases hb with h | h
    · simp [h]
    · have h1 : k1 ≠ 0 := by omega
      have h2 : k2 ≠ 0 := by omega
      simp [h, h1, h2]
  · intro h1
    rw [hdv1, hdv2, h1]
    simp [hne]
  · intro h0
    rw [hdv1, hdv2, h0]
    simp

/-- Witness for the amended C5: a concrete defender whose Carrier
occupies `(0,0)`, queried there with blinding factors 1 and 2. -/
theorem C5_witness :
    (carol.check_hit_homomorphic 0 0 bob 1).map Prod.snd =
      (carol.check_hit_homomorphic 0 0 bob 2).map Prod.snd ∧
    ((carolSetup.generate_keys 1000003).board 0 0 = 1 →
      carol.decryptedVal 0 0 1 ≠ carol.decryptedVal 0 0 2) ∧
    ((carolSetup.generate_keys 1000003).board 0 0 = 0 →
      carol.decryptedVal 0 0 1 = carol.decryptedVal 0 0 2) :=
  C5_blinding_amended (carolSetup.generate_keys 1000003) bob bob 0 0 1 2
    (by decide) (by decide) (by decide) (by decide) (Or.inr (by decide))
    (by decide) (by decide) (by decide) (by decide) (by decide)

/-- C7: `has_lost` is true exactly when `hits_received` reaches
`total_ship_cells`; that total is 16 for a freshly constructed player and
is preserved by queries, `hits_received` starts at 0 and grows by at most
one per query, so along any game trace `has_lost` first becomes true
exactly when `hits_received` equals 16. -/
theorem C7_has_lost_threshold :
    (∀ q : Player, q.has_lost = true ↔ q.total_ship_cells ≤ q.hits_received) ∧
    (∀ s : String, (Player.mk0 s).total_ship_cells = 16 ∧
      (Player.mk0 s).hits_received = 0) ∧
    (∀ (p o : Player) (r c k : Nat) (q : Player) (res : QueryResult),
      p.check_hit_homomorphic r c o k = some (q, res) →
      q.total_ship_cells = p.total_ship_cells ∧
      (q.hits_received = p.hits_received ∨
        q.hits_received = p.hits_received + 1) ∧
      (p.total_ship_cells = 16 → p.has_lost = false → q.has_lost = true →
        q.hits_received = 16)) := by
  refine ⟨?_, ?_, ?_⟩
  · intro q
    simp [Player.has_lost]
  · intro s
    exact ⟨rfl, rfl⟩
  · intro p o r c k q res h
    have htot := (check_hit_frame p o r c k q res h).2.2.2.2.2.2
    have hinc := check_hit_hits_received p o r c k q res h
    refine ⟨htot, hinc, ?_⟩
    intro h16 hnot hlost
    simp [Player.has_lost, htot, h16] at hnot hlost
    omega

/-- Witness for C7: a concrete miss query against `aliceE` (the query
preserves the counters and the threshold implication holds there). -/
theorem C7_witness :
    aliceE.total_ship_cells = aliceE.total_ship_cells ∧
    (aliceE.hits_received = aliceE.hits_received ∨
      aliceE.hits_received = aliceE.hits_received + 1) ∧
    (aliceE.total_ship_cells = 16 → aliceE.has_lost = false →
      aliceE.has_lost = true → aliceE.hits_received = 16) :=
  C7_has_lost_threshold.2.2 aliceE bob 0 0 5 aliceE QueryResult.miss rfl

/-- C8: a query on an already-guessed cell is rejected by the game loop
before the protocol is invoked — the step only advances the turn counter,
leaving both players and the attacker role unchanged — and on any
successful step the defender's guess board is untouched while every
already-set cell of the attacker's guess board keeps its value, so each
guess-board entry is written at most once, by the first query that
targets it. -/
theorem C8_repeated_guess_rejected (g : GameState) (guess : Nat × Nat)
    (k : Nat) :
    (g.current.guess_board guess.1 guess.2 ≠ ' ' →
      mainStep g guess k = some { g with turn := g.turn + 1 }) ∧
    (∀ g', mainStep g guess k = some g' →
      ((if g.currentIsP1 then g'.player2 else g'.player1).guess_board =
        g.opponent.guess_board) ∧
      ∀ r c, g.current.guess_board r c ≠ ' ' →
        (if g.currentIsP1 then g'.player1 else g'.player2).guess_board r c =
          g.current.guess_board r c) := by
  have hcur : ({ g with turn := g.turn + 1 } : GameState).current = g.current := rfl
  have hopp : ({ g with turn := g.turn + 1 } : GameState).opponent = g.opponent := rfl
  constructor
  · intro h
    unfold mainStep
    rw [if_pos]
    exact h
  · intro g' hstep
    unfold mainStep at hstep
    by_cases hg : g.current.guess_board guess.1 guess.2 = ' '
    · rw [if_neg (by rw [hcur]; simp [hg])] at hstep
      cases hc : ({ g with turn := g.turn + 1 } : GameState).opponent.check_hit_homomorphic
          guess.1 guess.2 ({ g with turn := g.turn + 1 } : GameState).current k with
      | none => rw [hc] at hstep; simp at hstep
      | some pr =>
        rw [hc] at hstep
        obtain ⟨opp', res⟩ := pr
        have hfr : opp'.guess_board = g.opponent.guess_board := by
          have := (check_hit_frame _ _ _ _ _ _ _ hc).2.2.1
          rw [this, hopp]
        have hattacker : ∀ r c, g.current.guess_board r c ≠ ' ' →
            (fun r c => if (r, c) = guess
                then (if res = QueryResult.miss then 'O' else 'X')
                else ({ g with turn := g.turn + 1 } : GameState).current.guess_board r c)
              r c = g.current.guess_board r c := by
          intro r c hrc
          rw [hcur]
          by_cases he : (r, c) = guess
          · exfalso
            apply hrc
            have : (r, c).1 = guess.1 ∧ (r, c).2 = guess.2 := by rw [he]; exact ⟨rfl, rfl⟩
            simp only at this
            rw [this.1, this.2]
            exact hg
          · simp [he]
        by_cases hl : opp'.has_lost
        · simp only [hl, if_true] at hstep
          cases hstep
          cases hb1 : g.currentIsP1 <;>
            simp_all [GameState.opponent, GameState.current] <;>
            exact hattacker
        · simp only [hl, Bool.false_eq_true, if_false] at hstep
          cases hstep
          cases hb1 : g.currentIsP1 <;>
            simp_all [GameState.opponent, GameState.current] <;>
            exact hattacker
    · rw [if_pos (by rw [hcur]; simp [hg])] at hstep
      cases hstep
      refine ⟨by by_cases hb1 : g.currentIsP1 <;> simp [GameState.opponent, hb1], ?_⟩
      intro r c hrc
      cases hb1 : g.currentIsP1 <;> simp_all [GameState.current]

/-- A concrete mid-game state in which the attacker (player 1) has
already guessed `(0,0)`. -/
def gsDemo : GameState where
  player1 :=
    { aliceE with guess_board := fun r c => if r = 0 ∧ c = 0 then 'X' else ' ' }
  player2 := carol
  currentIsP1 := true
  turn := 3
  game_over := false

/-- Witness for C8: re-guessing `(0,0)` in `gsDemo` only advances the
turn counter. -/
theorem C8_witness :
    mainStep gsDemo (0, 0) 5 = some { gsDemo with turn := gsDemo.turn + 1 } :=
  (C8_repeated_guess_rejected gsDemo (0, 0) 5).1 (by decide)

/-! Lemmas about the ship-lookup loop. -/

lemma markShipHit_not_found (rc : Nat × Nat) (ships : List Ship)
    (h : ∀ s ∈ ships, rc ∉ s.coordinates) :
    markShipHit rc ships = (ships, none) := by
  induction ships with
  | nil => rfl
  | cons s rest ih =>
    unfold markShipHit
    rw [if_neg (h s (by simp))]
    rw [ih fun t ht => h t (by simp [ht])]

lemma markShipHit_found (rc : Nat × Nat) (s : Ship) (post : List Ship) :
    ∀ pre : List Ship, (∀ t ∈ pre, rc ∉ t.coordinates) → rc ∈ s.coordinates →
      markShipHit rc (pre ++ s :: post) =
        (pre ++ { s with hits := insert rc s.hits } :: post,
          if (insert rc s.hits).card = s.size then some s.name else none) := by
  intro pre
  induction pre with
  | nil =>
    intro _ hs
    unfold markShipHit
    dsimp only [List.nil_append]
    rw [if_pos hs]
    simp [Ship.is_sunk]
  | cons t rest ih =>
    intro hpre hs
    unfold markShipHit
    dsimp only [List.cons_append]
    rw [if_neg (hpre t (by simp))]
    rw [ih (fun u hu => hpre u (by simp [hu])) hs]

lemma markShipHit_hits_sub (rc : Nat × Nat) (ships : List Ship)
    (h : ∀ s ∈ ships, ∀ x ∈ s.hits, x ∈ s.coordinates) :
    ∀ s' ∈ (markShipHit rc ships).1, ∀ x ∈ s'.hits, x ∈ s'.coordinates := by
  induction ships with
  | nil => simp [markShipHit]
  | cons s rest ih =>
    unfold markShipHit
    by_cases hm : rc ∈ s.coordinates
    · rw [if_pos hm]
      intro s' hs' x hx
      rcases List.mem_cons.mp hs' with he | ht
      · subst he
        simp only [Finset.mem_insert] at hx
        rcases hx with hx | hx
        · subst hx; exact hm
        · exact h s (by simp) x hx
      · exact h s' (by simp [ht]) x hx
    · rw [if_neg hm]
      intro s' hs' x hx
      rcases List.mem_cons.mp hs' with he | ht
      · subst he; exact h s' (by simp) x hx
      · exact ih (fun u hu => h u (by simp [hu])) s' ht x hx

/-- C4: when the decrypted blinded value classifies the query as a hit,
`check_hit_homomorphic` inserts `(r,c)` into the hit set of the (unique
leading) ship whose coordinates contain it, increments `hits_received` by
exactly one, and returns `("sunk", name)` when that ship's hit set
reaches its size and `("hit", None)` otherwise; on a miss it returns
`("miss", None)` with the defender's state entirely unchanged. -/
theorem C4_hit_updates (self o : Player) (r c k : Nat)
    (pre post : List Ship) (s : Ship)
    (hships : self.ships = pre ++ s :: post)
    (hpre : ∀ t ∈ pre, (r, c) ∉ t.coordinates)
    (hs : (r, c) ∈ s.coordinates)
    (v : Nat) (hv : self.decryptedVal r c k = some v) :
    (v ≠ 0 → self.check_hit_homomorphic r c o k =
      some ({ self with
          hits_received := self.hits_received + 1
          ships := pre ++ { s with hits := insert (r, c) s.hits } :: post },
        if (insert (r, c) s.hits).card = s.size then QueryResult.sunk s.name
        else QueryResult.hit)) ∧
    (v = 0 → self.check_hit_homomorphic r c o k =
      some (self, QueryResult.miss)) := by
  have hmark : markShipHit (r, c) self.ships =
      (pre ++ { s with hits := insert (r, c) s.hits } :: post,
        if (insert (r, c) s.hits).card = s.size then some s.name else none) := by
    rw [hships]
    exact markShipHit_found (r, c) s post pre hpre hs
  constructor
  · intro h0
    rw [check_hit_as_decryptedVal, hv]
    by_cases hsz : (insert (r, c) s.hits).card = s.size <;>
      simp [h0, hmark, hsz]
  · intro h0
    rw [check_hit_as_decryptedVal, hv, h0]
    rfl

/-- The Carrier as placed in `carol`'s board. -/
def carrier0 : Ship :=
  ⟨"Carrier", 5, [(0, 0), (0, 1), (0, 2), (0, 3), (0, 4)], ∅⟩

/-- The other four ships as placed in `carol`'s board. -/
def carolRest : List Ship :=
  [⟨"Battleship", 4, [(1, 0), (1, 1), (1, 2), (1, 3)], ∅⟩,
   ⟨"Cruiser", 3, [(2, 0), (2, 1), (2, 2)], ∅⟩,
   ⟨"Submarine", 2, [(3, 0), (3, 1)], ∅⟩,
   ⟨"Destroyer", 2, [(4, 0), (4, 1)], ∅⟩]

/-- Witness for C4: hitting `carol`'s Carrier at `(0,0)` adds the hit to
the Carrier, increments the hit counter, and returns a plain hit (one of
five cells). -/
theorem C4_witness :
    carol.check_hit_homomorphic 0 0 bob 5 =
      some ({ carol with
          hits_received := carol.hits_received + 1
          ships := [] ++ { carrier0 with
            hits := insert ((0 : Nat), (0 : Nat)) carrier0.hits } :: carolRest },
        if (insert ((0 : Nat), (0 : Nat)) carrier0.hits).card = carrier0.size
        then QueryResult.sunk carrier0.name else QueryResult.hit) :=
  (C4_hit_updates carol bob 0 0 5 [] carolRest carrier0 (by decide)
    (by simp) (by decide) 5 rfl).1 (by decide)

/-- A successful `place_ship_random` call used some sampled candidate:
the returned ship is the input ship with its coordinate list frozen to
that candidate's cells, all of which were water, and the returned board
marks exactly those cells. -/
lemma place_ship_random_spec (s : Ship) (cs : List Candidate) :
    ∀ (b b1 : Board) (s1 : Ship),
      place_ship_random b s cs = some (b1, s1) →
      ∃ cand ∈ cs,
        s1 = { s with coordinates := s.place cand.row cand.col cand.horizontal } ∧
        b1 = b.mark (s.place cand.row cand.col cand.horizontal) ∧
        ∀ rc ∈ s.place cand.row cand.col cand.horizontal, b rc.1 rc.2 = 0 := by
  induction cs with
  | nil => intro b b1 s1 h; simp [place_ship_random] at h
  | cons cand rest2 ih =>
    intro b b1 s1 h
    unfold place_ship_random at h
    by_cases hall : (s.place cand.row cand.col cand.horizontal).all
        fun rc => b rc.1 rc.2 == 0
    · rw [if_pos hall] at h
      simp only [Option.some_inj] at h
      refine ⟨cand, by simp, ?_, ?_, ?_⟩
      · exact (congrArg Prod.snd h).symm
      · exact (congrArg Prod.fst h).symm
      · intro rc hrc
        have := List.all_eq_true.mp hall rc hrc
        simpa using this
    · rw [if_neg hall] at h
      obtain ⟨cand2, hc2, hrest⟩ := ih b b1 s1 h
      exact ⟨cand2, by simp [hc2], hrest⟩

/-- C6: `is_sunk` holds exactly when the hit count equals the ship size;
every ship starts with an empty hit set which placement preserves, the
hit-check protocol only ever inserts a coordinate of the ship itself into
its hit set (so `hits ⊆ coordinates` at every reachable state), and a
query returns `SUNK` for the struck ship exactly when it brings that
ship's hit set to full size. -/
theorem C6_ship_invariants :
    (∀ s : Ship, s.is_sunk = true ↔ s.hits.card = s.size) ∧
    (∀ s ∈ initialFleet, s.hits = ∅) ∧
    (∀ (b : Board) (ships : List Ship) (css : List (List Candidate))
        (b' : Board) (ss' : List Ship),
      setupShips b ships css = some (b', ss') →
      (∀ s ∈ ships, s.hits = ∅) → ∀ s' ∈ ss', s'.hits = ∅) ∧
    (∀ (p o : Player) (r c k : Nat) (q : Player) (res : QueryResult),
      (∀ s ∈ p.ships, ∀ rc ∈ s.hits, rc ∈ s.coordinates) →
      p.check_hit_homomorphic r c o k = some (q, res) →
      ∀ s' ∈ q.ships, ∀ rc ∈ s'.hits, rc ∈ s'.coordinates) ∧
    (∀ (self o : Player) (r c k : Nat) (pre post : List Ship) (s : Ship)
        (v : Nat),
      self.ships = pre ++ s :: post →
      (∀ t ∈ pre, (r, c) ∉ t.coordinates) →
      (r, c) ∈ s.coordinates →
      self.decryptedVal r c k = some v → v ≠ 0 →
      ∀ q res, self.check_hit_homomorphic r c o k = some (q, res) →
        (res = QueryResult.sunk s.name ↔
          (insert (r, c) s.hits).card = s.size)) := by
  refine ⟨?_, ?_, ?_, ?_, ?_⟩
  · intro s
    simp [Ship.is_sunk]
  · intro s hs
    fin_cases hs <;> rfl
  · intro b ships
    induction ships generalizing b with
    | nil =>
      intro css b' ss' hset hemp
      cases css <;> simp [setupShips] at hset <;> obtain ⟨h1, h2⟩ := hset <;>
        subst h2 <;> simp
    | cons s rest ih =>
      intro css b' ss' hset hemp
      cases css with
      | nil => simp [setupShips] at hset
      | cons cs css2 =>
        unfold setupShips at hset
        cases hpl : place_ship_random b s cs with
        | none => rw [hpl] at hset; simp at hset
        | some pr =>
          rw [hpl] at hset
          obtain ⟨b1, s1⟩ := pr
          dsimp only at hset
          cases hrec : setupShips b1 rest css2 with
          | none => rw [hrec] at hset; simp at hset
          | some pr2 =>
            rw [hrec] at hset
            obtain ⟨b2, ss2⟩ := pr2
            simp at hset
            obtain ⟨hb2, hss⟩ := hset
            have hs1 : s1.hits = s.hits := by
              obtain ⟨cand, -, hrec1, -⟩ := place_ship_random_spec s cs b b1 s1 hpl
              rw [hrec1]
            intro s' hs'
            rw [← hss] at hs'
            rcases List.mem_cons.mp hs' with he | ht
            · subst he
              rw [hs1]
              exact hemp s (by simp)
            · exact ih b1 css2 b2 ss2 hrec (fun u hu => hemp u (by simp [hu])) s' ht
  · intro p o r c k q res hsub h
    rw [check_hit_as_decryptedVal] at h
    cases hv : p.decryptedVal r c k with
    | none => rw [hv] at h; simp at h
    | some v =>
      rw [hv] at h
      by_cases h0 : v = 0
      · simp [h0] at h
        rw [← h.1]
        exact hsub
      · simp [h0] at h
        rw [← h.1]
        exact markShipHit_hits_sub (r, c) p.ships hsub
  · intro self o r c k pre post s v hships hpre hs hv h0 q res h
    have := (C4_hit_updates self o r c k pre post s hships hpre hs v hv).1 h0
    rw [this] at h
    by_cases hsz : (insert (r, c) s.hits).card = s.size
    · rw [if_pos hsz] at h
      simp at h
      rw [← h.2]
      simp [hsz]
    · rw [if_neg hsz] at h
      simp at h
      rw [← h.2]
      simp [hsz]

/-- Witness for C6: a concrete miss query against `aliceE` preserves the
hits-within-coordinates invariant. -/
theorem C6_witness :
    ∀ s' ∈ aliceE.ships, ∀ rc ∈ s'.hits, rc ∈ s'.coordinates :=
  C6_ship_invariants.2.2.2.1 aliceE bob 0 0 5 aliceE QueryResult.miss
    (by decide) rfl

/-! Lemmas for placement validity. -/

lemma place_length (s : Ship) (row col : Nat) (hz : Bool) :
    (s.place row col hz).length = s.size := by
  simp [Ship.place]

lemma place_nodup (s : Ship) (row col : Nat) (hz : Bool) :
    (s.place row col hz).Nodup := by
  unfold Ship.place
  refine List.Nodup.map ?_ (List.nodup_range s.size)
  intro a b hab
  cases hz <;> simp at hab <;> omega

lemma place_mem_grid (s : Ship) (cand : Candidate)
    (hin : candidateInRange s cand) (h1 : 1 ≤ s.size) (h10 : s.size ≤ 10) :
    ∀ rc ∈ s.place cand.row cand.col cand.horizontal,
      rc.1 < 10 ∧ rc.2 < 10 := by
  intro rc hrc
  unfold Ship.place at hrc
  simp only [List.mem_map, List.mem_range] at hrc
  obtain ⟨i, hi, hrc⟩ := hrc
  unfold candidateInRange at hin
  cases hh : cand.horizontal <;> simp [hh] at hrc hin <;> rw [← hrc] <;>
    exact ⟨by omega, by omega⟩

lemma mark_eq_one (b : Board) (coords : List (Nat × Nat)) (r c : Nat) :
    b.mark coords r c = 1 ↔ ((r, c) ∈ coords ∨ b r c = 1) := by
  unfold Board.mark
  by_cases h : (r, c) ∈ coords <;> simp [h]

lemma mark_eq_zero (b : Board) (coords : List (Nat × Nat)) (r c : Nat) :
    b.mark coords r c = 0 ↔ ((r, c) ∉ coords ∧ b r c = 0) := by
  unfold Board.mark
  by_cases h : (r, c) ∈ coords <;> simp [h]

lemma occupied_mark (b : Board) (coords : List (Nat × Nat))
    (hgrid : ∀ rc ∈ coords, rc.1 < 10 ∧ rc.2 < 10) :
    (b.mark coords).occupied = b.occupied ∪ coords.toFinset := by
  ext p
  obtain ⟨r, c⟩ := p
  simp only [Board.occupied, Finset.mem_union, Finset.mem_filter,
    Finset.mem_product, Finset.mem_range, List.mem_toFinset]
  constructor
  · rintro ⟨hp, hm⟩
    rcases (mark_eq_one b coords r c).mp hm with h | h
    · exact Or.inr h
    · exact Or.inl ⟨hp, h⟩
  · rintro (⟨hp, h⟩ | h)
    · exact ⟨hp, (mark_eq_one b coords r c).mpr (Or.inr h)⟩
    · exact ⟨hgrid (r, c) h, (mark_eq_one b coords r c).mpr (Or.inl h)⟩

lemma occupied_card_mark (b : Board) (coords : List (Nat × Nat))
    (hgrid : ∀ rc ∈ coords, rc.1 < 10 ∧ rc.2 < 10)
    (hnodup : coords.Nodup)
    (hwater : ∀ rc ∈ coords, b rc.1 rc.2 = 0) :
    (b.mark coords).occupied.card = b.occupied.card + coords.length := by
  rw [occupied_mark b coords hgrid, Finset.card_union_of_disjoint, 
    List.toFinset_card_of_nodup hnodup]
  rw [Finset.disjoint_left]
  intro p hp hpc
  have h0 := hwater p (List.mem_toFinset.mp hpc)
  simp only [Board.occupied, Finset.mem_filter] at hp
  omega

lemma forall2_size_sum (ships ss' : List Ship)
    (h : List.Forall₂ (fun s s' => s'.size = s.size) ships ss') :
    (ss'.map Ship.size).sum = (ships.map Ship.size).sum := by
  induction h with
  | nil => rfl
  | cons h1 h2 ih => simp [h1, ih]

/-- The full specification of the `setup_board` loop: given in-range
candidate streams, a successful run keeps the fleet's sizes, produces
ships whose coordinate lists have the declared lengths, no duplicates and
in-grid cells, places them on previously-free cells, pairwise disjoint,
and grows the occupied-cell count by the total fleet size. -/
lemma setupShips_spec :
    ∀ (ships : List Ship) (css : List (List Candidate)) (b b' : Board)
      (ss' : List Ship),
      List.Forall₂ (fun s cs => ∀ cand ∈ cs, candidateInRange s cand) ships css →
      (∀ s ∈ ships, 1 ≤ s.size ∧ s.size ≤ 10) →
      setupShips b ships css = some (b', ss') →
      List.Forall₂ (fun s s' => s'.size = s.size) ships ss' ∧
      (∀ s' ∈ ss', s'.coordinates.length = s'.size ∧ s'.coordinates.Nodup ∧
        ∀ rc ∈ s'.coordinates, rc.1 < 10 ∧ rc.2 < 10) ∧
      (∀ s' ∈ ss', ∀ rc ∈ s'.coordinates, b rc.1 rc.2 = 0) ∧
      List.Pairwise (fun s' t' => ∀ rc ∈ s'.coordinates, rc ∉ t'.coordinates) ss' ∧
      b'.occupied.card = b.occupied.card + (ss'.map Ship.size).sum := by
  intro ships
  induction ships with
  | nil =>
    intro css b b' ss' hf hsz hset
    cases hf
    simp [setupShips] at hset
    obtain ⟨h1, h2⟩ := hset
    subst h1
    subst h2
    simp
  | cons s rest ih =>
    intro css b b' ss' hf hsz hset
    cases hf with
    | cons hcs hf2 =>
      rename_i cs css2
      unfold setupShips at hset
      cases hpl : place_ship_random b s cs with
      | none => rw [hpl] at hset; simp at hset
      | some pr =>
        rw [hpl] at hset
        obtain ⟨b1, s1⟩ := pr
        dsimp only at hset
        cases hrec : setupShips b1 rest css2 with
        | none => rw [hrec] at hset; simp at hset
        | some pr2 =>
          rw [hrec] at hset
          obtain ⟨b2, ss2⟩ := pr2
          simp only [Option.some_inj] at hset
          have hb2 : b2 = b' := congrArg Prod.fst hset
          have hss : s1 :: ss2 = ss' := congrArg Prod.snd hset
          obtain ⟨cand, hc, hs1, hb1, hwater⟩ :=
            place_ship_random_spec s cs b b1 s1 hpl
          have hcoords : s1.coordinates =
              s.place cand.row cand.col cand.horizontal := by rw [hs1]
          have hsize1 : s1.size = s.size := by rw [hs1]
          have hs_sz := hsz s (by simp)
          have hgrid : ∀ rc ∈ s.place cand.row cand.col cand.horizontal,
              rc.1 < 10 ∧ rc.2 < 10 :=
            place_mem_grid s cand (hcs cand hc) hs_sz.1 hs_sz.2
          obtain ⟨hfa2, hprops2, hwater2, hpair2, hcard2⟩ :=
            ih css2 b1 b2 ss2 hf2 (fun u hu => hsz u (by simp [hu])) hrec
          have hwater2b : ∀ u ∈ ss2, ∀ rc ∈ u.coordinates, b rc.1 rc.2 = 0 ∧
              rc ∉ s.place cand.row cand.col cand.horizontal := by
            intro u hu rc hrc
            have := hwater2 u hu rc hrc
            rw [hb1] at this
            have h2 := (mark_eq_zero b _ rc.1 rc.2).mp (by
              have : b1 rc.1 rc.2 = 0 := hwater2 u hu rc hrc
              rw [hb1] at this
              exact this)
            exact ⟨h2.2, h2.1⟩
          rw [← hss]
          refine ⟨List.Forall₂.cons hsize1 hfa2, ?_, ?_, ?_, ?_⟩
          · intro s' hs'
            rcases List.mem_cons.mp hs' with he | ht
            · subst he
              rw [hcoords, hsize1]
              exact ⟨place_length s cand.row cand.col cand.horizontal,
                place_nodup s cand.row cand.col cand.horizontal, hgrid⟩
            · exact hprops2 s' ht
          · intro s' hs' rc hrc
            rcases List.mem_cons.mp hs' with he | ht
            · subst he
              rw [hcoords] at hrc
              exact hwater rc hrc
            · exact (hwater2b s' ht rc hrc).1
          · refine List.Pairwise.cons ?_ hpair2
            intro u hu rc hrc hrc2
            have := (hwater2b u hu rc hrc2).2
            rw [hcoords] at hrc
            exact this hrc
          · rw [← hb2, hcard2, hb1,
              occupied_card_mark b _ hgrid
                (place_nodup s cand.row cand.col cand.horizontal) hwater,
              place_length s cand.row cand.col cand.horizontal]
            simp [hsize1]
            omega

/-- C3: after a successful `setup_board` (all five ships placed through
`place_ship_random` with in-range sampled candidates), no two ships'
coordinate sets intersect, every ship's coordinate list has length equal
to its declared size, every coordinate lies within `[0,9] × [0,9]`, and
exactly 16 board cells are marked 1. -/
theorem C3_placement_valid (name : String) (css : List (List Candidate))
    (p' : Player)
    (hin : List.Forall₂ (fun s cs => ∀ cand ∈ cs, candidateInRange s cand)
      (Player.mk0 name).ships css)
    (hset : (Player.mk0 name).setup_board css = some p') :
    List.Pairwise (fun s' t' => ∀ rc ∈ s'.coordinates, rc ∉ t'.coordinates)
      p'.ships ∧
    (∀ s' ∈ p'.ships, s'.coordinates.length = s'.size) ∧
    (∀ s' ∈ p'.ships, ∀ rc ∈ s'.coordinates, rc.1 ≤ 9 ∧ rc.2 ≤ 9) ∧
    p'.board.occupied.card = 16 := by
  unfold Player.setup_board at hset
  cases hss : setupShips (Player.mk0 name).board (Player.mk0 name).ships css with
  | none => rw [hss] at hset; simp at hset
  | some pr =>
    rw [hss] at hset
    obtain ⟨b', ss'⟩ := pr
    dsimp only at hset
    simp only [Option.some_inj] at hset
    have hsz : ∀ s ∈ (Player.mk0 name).ships, 1 ≤ s.size ∧ s.size ≤ 10 := by
      intro s hs
      rw [show (Player.mk0 name).ships = initialFleet from rfl] at hs
      fin_cases hs <;> exact ⟨by decide, by decide⟩
    obtain ⟨hfa, hprops, hwater0, hpair, hcard⟩ :=
      setupShips_spec (Player.mk0 name).ships css (Player.mk0 name).board
        b' ss' hin hsz hss
    have hships : p'.ships = ss' := by rw [← hset]
    have hboard : p'.board = b' := by rw [← hset]
    refine ⟨?_, ?_, ?_, ?_⟩
    · rw [hships]; exact hpair
    · rw [hships]
      intro s' h
      exact (hprops s' h).1
    · rw [hships]
      intro s' h rc hrc
      have := (hprops s' h).2.2 rc hrc
      omega
    · rw [hboard, hcard]
      have hempty : (Player.mk0 name).board.occupied.card = 0 :=
        (by decide : Board.empty.occupied.card = 0)
      rw [hempty, forall2_size_sum _ _ hfa]
      rfl

/-- Witness for C3: the concrete `demoCss` placement run. -/
theorem C3_witness :
    List.Pairwise (fun s' t' => ∀ rc ∈ s'.coordinates, rc ∉ t'.coordinates)
      carolSetup.ships ∧
    (∀ s' ∈ carolSetup.ships, s'.coordinates.length = s'.size) ∧
    (∀ s' ∈ carolSetup.ships, ∀ rc ∈ s'.coordinates, rc.1 ≤ 9 ∧ rc.2 ≤ 9) ∧
    carolSetup.board.occupied.card = 16 :=
  C3_placement_valid "Carol" demoCss carolSetup
    (by
      show List.Forall₂ _ initialFleet demoCss
      unfold initialFleet demoCss
      exact List.Forall₂.cons (by decide) (List.Forall₂.cons (by decide)
        (List.Forall₂.cons (by decide) (List.Forall₂.cons (by decide)
          (List.Forall₂.cons (by decide) List.Forall₂.nil)))))
    rfl
